import Mathlib

/-!
# A shallow embedding of Falcor's `RenderGraph`

This file models `Framework/Source/Graphics/RenderGraph/RenderGraph.h`.
The repository ships only the class declaration; every operation body is
therefore modelled from the specification's description of that operation
(each such definition says so in its doc comment).  Data that *is* visible
in the header — the member layout (`mNameToIndex`/`mpPasses`, `mEdges`,
`mOutputs`, `mOverridePassDatas`, `mSwapChainData`), the initializer
`bool mRecompile = true;`, and the documented semantics of each member
function — is embedded directly.

Design notes of the embedding:
* C++ raw pointers (`RenderPass*` stored in `Edge`/`GraphOut`) are modelled
  by numeric pass identities allocated by the graph; removing a pass does
  not renumber ids, so edges can dangle exactly as raw pointers do.
* `std::shared_ptr<Resource>` identity ("the very same resource object")
  is modelled by a numeric resource id allocated at creation time; two
  fields hold the same shared resource iff they hold the same id.
* The human-readable validation log is modelled as a list of structured
  diagnostics; rendering them to text is presentation only.
-/

namespace Falcor

/-- Resource formats (a small stand-in for `ResourceFormat`;
`unknown` is the format-agnostic value, as in the header's
`ResourceFormat::Unknown` swap-chain defaults). -/
inductive ResFormat where
  | unknown
  | rgba8
  | rgba16
  | d32
deriving DecidableEq, Repr

/-- Modelled from the spec: a field's dimension policy — fixed size,
derived from the incoming edge, or derived from the swap chain. -/
inductive DimPolicy where
  | fixed (w h : Nat)
  | derivedFromEdge
  | derivedFromSwapchain
deriving DecidableEq, Repr

/-- Modelled from the spec: `RenderPass::PassData::Field` — a declared
field with a name, a resource-shape contract (format + dimension policy)
and, for inputs, whether the field is required. -/
structure Field where
  name : String
  format : ResFormat
  dims : DimPolicy
  required : Bool
deriving DecidableEq, Repr

/-- Modelled from the spec: the declared metadata of a render pass —
its named input fields and named output fields. -/
structure PassData where
  inputs : List Field
  outputs : List Field
deriving DecidableEq, Repr

/-- A concrete resource handle.  `id` models shared-pointer identity:
it is allocated fresh by `createTextureForPass`, and propagating a
resource along an edge copies the id (the same shared object), never
allocates a new one. -/
structure Resource where
  id : Nat
  format : ResFormat
  width : Nat
  height : Nat
deriving DecidableEq, Repr

/-- `RenderGraph::Edge` from the header: source/destination pass
references (modelled as pass ids standing for the `RenderPass*`
pointers) plus the two field names. -/
structure Edge where
  srcId : Nat
  dstId : Nat
  srcField : String
  dstField : String
deriving DecidableEq, Repr

/-- `RenderGraph::GraphOut` from the header: a pass reference
(modelled as a pass id standing for the `RenderPass*` pointer)
plus the output field name. -/
structure GraphOut where
  pid : Nat
  field : String
deriving DecidableEq, Repr

/-- One structured entry of the validator's diagnostic log. -/
inductive Diag where
  | cycleDetected (names : List String)
  | unsatisfiedInput (passName fieldName : String)
  | emptyOutputSet
deriving DecidableEq, Repr

/-- Error kinds of the graph operations (spec section 7). -/
inductive GraphError where
  | DuplicateName
  | NotFound
  | MalformedAddress
  | SameFields
  | FieldAlreadyBound
  | TypeMismatch
  | CompileError (log : List Diag)
  | AllocationFailure
deriving DecidableEq, Repr

/-- One registry entry: the pass name (key of `mNameToIndex`), the
pass identity (standing for the `RenderPass::SharedPtr` address), the
declared pass metadata, and the pass's bound input/output resources
(the storage behind `setInput`/`setOutput`/`getOutput`). -/
structure PassNode where
  name : String
  pid : Nat
  data : PassData
  inputRes : List (String × Option Resource)
  outputRes : List (String × Option Resource)
deriving DecidableEq, Repr

/-- The `RenderGraph` state: pass registry (`mNameToIndex`+`mpPasses`),
pass-identity allocator, edge table (`mEdges`), graph output set
(`mOutputs`), field overrides (`mOverridePassDatas`), the dirty flag
(`mRecompile`, initialized `true` in the header), the swap-chain data
(`mSwapChainData`) and the resource-id allocator. -/
structure RenderGraph where
  passes : List PassNode
  nextId : Nat
  edges : List Edge
  outputs : List GraphOut
  overrides : List (String × Field)
  mRecompile : Bool
  swapW : Nat
  swapH : Nat
  swapColor : ResFormat
  swapDepth : ResFormat
  nextResId : Nat
deriving DecidableEq, Repr

/-- `RenderGraph::create()`: a fresh graph with empty registry, edge
table and output set; `mRecompile` starts `true` per the header's
member initializer. -/
def RenderGraph.create : RenderGraph :=
  ⟨[], 0, [], [], [], true, 0, 0, .unknown, .unknown, 0⟩

/-- Look a pass up by name (models the `mNameToIndex` lookup). -/
def findPass (g : RenderGraph) (n : String) : Option PassNode :=
  g.passes.find? (fun p => p.name = n)

/-- Look a pass up by identity (models dereferencing a stored
`RenderPass*` back into the registry; `none` means the pointer
dangles). -/
def findPassById (g : RenderGraph) (pid : Nat) : Option PassNode :=
  g.passes.find? (fun p => p.pid = pid)

/-- Split a character list at the first `'.'`. -/
def splitDotAux : List Char → Option (List Char × List Char)
  | [] => none
  | c :: rest =>
    if c = '.' then some ([], rest)
    else (splitDotAux rest).map (fun p => (c :: p.1, p.2))

/-- Modelled from the spec: split a `"pass.field"` address at the
first `'.'`; `none` when the string holds no dot. -/
def splitDot (s : String) : Option (String × String) :=
  (splitDotAux s.toList).map (fun p => (p.1.asString, p.2.asString))

/-- Modelled from the spec: the name resolver.  Parses `"pass.field"`,
fails with `MalformedAddress` when there is no dot or a side is empty,
with `NotFound` when the pass is unregistered or the field is not
declared in the requested direction (`true` = input side). -/
def resolveField (g : RenderGraph) (s : String) (dir : Bool) :
    Except GraphError (PassNode × Field) :=
  match splitDot s with
  | none => .error .MalformedAddress
  | some (a, b) =>
    if a = "" ∨ b = "" then .error .MalformedAddress
    else
      match findPass g a with
      | none => .error .NotFound
      | some p =>
        let fields := if dir then p.data.inputs else p.data.outputs
        match fields.find? (fun f => f.name = b) with
        | none => .error .NotFound
        | some f => .ok (p, f)

/-- Modelled from the spec: structural compatibility of two field
contracts — formats match or either side is format-agnostic, and the
dimension policies are not mutually exclusive (two fixed-but-different
sizes conflict). -/
def compatibleFields (src dst : Field) : Bool :=
  (src.format == dst.format || src.format == .unknown || dst.format == .unknown) &&
  (match src.dims, dst.dims with
   | .fixed w1 h1, .fixed w2 h2 => w1 == w2 && h1 == h2
   | _, _ => true)

/-- `addRenderPass`: modelled from the spec and the header comment
"The name has to be unique, otherwise the call will be ignored" —
fails with `DuplicateName` leaving the graph untouched; otherwise
stores the pass under a fresh identity and marks the graph dirty. -/
def addRenderPass (g : RenderGraph) (pd : PassData) (n : String) :
    Option GraphError × RenderGraph :=
  if g.passes.any (fun p => p.name = n) then (some .DuplicateName, g)
  else
    (none,
     { g with
        passes := g.passes ++ [⟨n, g.nextId, pd, [], []⟩],
        nextId := g.nextId + 1,
        mRecompile := true })

/-- `removeRenderPass`: modelled from the spec — `NotFound` when the
name is absent; otherwise removes the registry entry and marks dirty.
Per the header comment ("You need to make sure the edges are still
valid after the node was removed") it does not repair dangling edges
or outputs. -/
def removeRenderPass (g : RenderGraph) (n : String) :
    Option GraphError × RenderGraph :=
  if g.passes.any (fun p => p.name = n) then
    (none,
     { g with
        passes := g.passes.filter (fun p => !(p.name == n)),
        mRecompile := true })
  else (some .NotFound, g)

/-- `addEdge`: modelled from the spec — resolves both addresses (source
as an output field, destination as an input field), then fails with
`SameFields` when both addresses name the same pass, `FieldAlreadyBound`
when an edge already terminates at the destination field, `TypeMismatch`
when the contracts are incompatible; otherwise appends the edge and
marks dirty. -/
def addEdge (g : RenderGraph) (src dst : String) :
    Option GraphError × RenderGraph :=
  match resolveField g src false with
  | .error e => (some e, g)
  | .ok (ps, fs) =>
    match resolveField g dst true with
    | .error e => (some e, g)
    | .ok (pd, fd) =>
      if ps.pid = pd.pid then (some .SameFields, g)
      else if g.edges.any (fun e => e.dstId = pd.pid ∧ e.dstField = fd.name) then
        (some .FieldAlreadyBound, g)
      else if !compatibleFields fs fd then (some .TypeMismatch, g)
      else
        (none,
         { g with
            edges := g.edges ++ [⟨ps.pid, pd.pid, fs.name, fd.name⟩],
            mRecompile := true })

/-- `removeEdge`: modelled from the spec — resolves both addresses,
fails with `NotFound` when no such edge exists, otherwise removes it
and marks dirty. -/
def removeEdge (g : RenderGraph) (src dst : String) :
    Option GraphError × RenderGraph :=
  match resolveField g src false with
  | .error e => (some e, g)
  | .ok (ps, fs) =>
    match resolveField g dst true with
    | .error e => (some e, g)
    | .ok (pd, fd) =>
      let isTarget := fun (e : Edge) =>
        e.srcId = ps.pid ∧ e.dstId = pd.pid ∧ e.srcField = fs.name ∧ e.dstField = fd.name
      if g.edges.any (fun e => isTarget e) then
        (none,
         { g with
            edges := g.edges.filter (fun e => !(decide (isTarget e))),
            mRecompile := true })
      else (some .NotFound, g)

/-- Insert a graph output if not already present (idempotent insert,
spec section 4.4). -/
def insertOut (outs : List GraphOut) (o : GraphOut) : List GraphOut :=
  if o ∈ outs then outs else outs ++ [o]

/-- Modelled from the spec: resolve a graph-output address; a bare pass
name (no dot) expands to all of that pass's declared output fields. -/
def resolveOutAddr (g : RenderGraph) (s : String) :
    Except GraphError (List GraphOut) :=
  match splitDot s with
  | none =>
    match findPass g s with
    | none => .error .NotFound
    | some p => .ok (p.data.outputs.map (fun f => ⟨p.pid, f.name⟩))
  | some (a, b) =>
    if a = "" ∨ b = "" then .error .MalformedAddress
    else
      match findPass g a with
      | none => .error .NotFound
      | some p =>
        if p.data.outputs.any (fun f => f.name = b) then .ok [⟨p.pid, b⟩]
        else .error .NotFound

/-- `markGraphOutput`: modelled from the spec — resolves the address
(bare pass name expands to all declared outputs), idempotently inserts
each resolved `(pass, field)` into the output set, marks dirty. -/
def markGraphOutput (g : RenderGraph) (s : String) :
    Option GraphError × RenderGraph :=
  match resolveOutAddr g s with
  | .error e => (some e, g)
  | .ok entries =>
    (none,
     { g with outputs := entries.foldl insertOut g.outputs, mRecompile := true })

/-- `unmarkGraphOutput`: modelled from the spec — symmetric removal;
unmarking a non-marked output is a no-op on the set. -/
def unmarkGraphOutput (g : RenderGraph) (s : String) :
    Option GraphError × RenderGraph :=
  match resolveOutAddr g s with
  | .error e => (some e, g)
  | .ok entries =>
    (none,
     { g with
        outputs := g.outputs.filter (fun o => !(decide (o ∈ entries))),
        mRecompile := true })

/-- Set a key in an association list, replacing an existing binding. -/
def setAssoc : List (String × Option Resource) → String → Option Resource →
    List (String × Option Resource)
  | [], k, v => [(k, v)]
  | (k', v') :: rest, k, v =>
    if k' = k then (k, v) :: rest else (k', v') :: setAssoc rest k v

/-- Rebind one pass's output-field storage inside the registry. -/
def setOutputResById (g : RenderGraph) (pid : Nat) (fname : String)
    (r : Option Resource) : RenderGraph :=
  { g with
     passes := g.passes.map (fun p =>
       if p.pid = pid then { p with outputRes := setAssoc p.outputRes fname r } else p) }

/-- Rebind one pass's input-field storage inside the registry. -/
def setInputResById (g : RenderGraph) (pid : Nat) (fname : String)
    (r : Option Resource) : RenderGraph :=
  { g with
     passes := g.passes.map (fun p =>
       if p.pid = pid then { p with inputRes := setAssoc p.inputRes fname r } else p) }

/-- Read a pass's bound output resource through the registry. -/
def getOutputResById (g : RenderGraph) (pid : Nat) (fname : String) :
    Option Resource :=
  match findPassById g pid with
  | none => none
  | some p =>
    match p.outputRes.lookup fname with
    | some r => r
    | none => none

/-- Read a pass's bound input resource through the registry. -/
def getInputResById (g : RenderGraph) (pid : Nat) (fname : String) :
    Option Resource :=
  match findPassById g pid with
  | none => none
  | some p =>
    match p.inputRes.lookup fname with
    | some r => r
    | none => none

/-- `setInput`: modelled from the spec — alias for
`getRenderPass(name)->setInput(field, resource)`; marks dirty. -/
def setInput (g : RenderGraph) (s : String) (r : Option Resource) :
    Option GraphError × RenderGraph :=
  match resolveField g s true with
  | .error e => (some e, g)
  | .ok (p, f) =>
    (none, { setInputResById g p.pid f.name r with mRecompile := true })

/-- `setOutput`: modelled from the spec — binds the pass's output-field
storage and automatically marks that address as a graph output (even
when called with a null resource); marks dirty. -/
def setOutput (g : RenderGraph) (s : String) (r : Option Resource) :
    Option GraphError × RenderGraph :=
  match resolveField g s false with
  | .error e => (some e, g)
  | .ok (p, f) =>
    let g1 := setOutputResById g p.pid f.name r
    (none,
     { g1 with outputs := insertOut g1.outputs ⟨p.pid, f.name⟩, mRecompile := true })

/-- `getInput`: modelled from the spec — alias for
`getRenderPass(name)->getInput(field)`. -/
def getInput (g : RenderGraph) (s : String) : Option Resource :=
  match resolveField g s true with
  | .error _ => none
  | .ok (p, f) => getInputResById g p.pid f.name

/-- `getOutput`: modelled from the spec — alias for
`getRenderPass(name)->getOutput(field)`. -/
def getOutput (g : RenderGraph) (s : String) : Option Resource :=
  match resolveField g s false with
  | .error _ => none
  | .ok (p, f) => getOutputResById g p.pid f.name

/-- `onResizeSwapChain`: modelled from the spec — updates
`mSwapChainData` and marks the graph dirty. -/
def onResizeSwapChain (g : RenderGraph) (w h : Nat) : RenderGraph :=
  { g with swapW := w, swapH := h, mRecompile := true }

/-! ## Validator -/

/-- The vertex set of the directed graph induced by the edge table:
every pass reference occurring as an edge endpoint. -/
def nodesOf (edges : List Edge) : List Nat :=
  (edges.map Edge.srcId ++ edges.map Edge.dstId).dedup

/-- One elimination round of the cycle check: keep exactly the vertices
that still have an incoming edge from a remaining vertex (vertices with
no remaining predecessor can never lie on a cycle). -/
def stepElim (edges : List Edge) (ns : List Nat) : List Nat :=
  ns.filter (fun v => edges.any (fun e => e.dstId = v ∧ e.srcId ∈ ns))

/-- The step relation induced by an edge table. -/
def edgeRel (edges : List Edge) (a b : Nat) : Prop :=
  ∃ e ∈ edges, e.srcId = a ∧ e.dstId = b

instance edgeRelDec (edges : List Edge) (a b : Nat) : Decidable (edgeRel edges a b) :=
  inferInstanceAs (Decidable (∃ e ∈ edges, e.srcId = a ∧ e.dstId = b))

/-- Modelled from the spec: the validator's cycle detection over the
directed graph induced by the edges, implemented as iterated
elimination of predecessor-free vertices (an equivalent formulation of
the spec's suggested DFS back-edge search); the vertices that survive
witness a cycle. -/
def cycleRemaining (edges : List Edge) : List Nat :=
  Nat.iterate (stepElim edges) (nodesOf edges).length (nodesOf edges)

/-- The display name for a pass reference; dangling references render
as a placeholder. -/
def passNameOf (g : RenderGraph) (pid : Nat) : String :=
  match findPassById g pid with
  | some p => p.name
  | none => "<unknown>"

/-- Modelled from the spec: whether a required input field is satisfied
by an incoming edge from a *registered* pass (a dangling edge endpoint
counts as a missing requirement), by an explicit override, or by a
caller-provided input resource. -/
def inputSatisfied (g : RenderGraph) (p : PassNode) (f : Field) : Bool :=
  g.edges.any (fun e =>
      e.dstId = p.pid ∧ e.dstField = f.name ∧ (findPassById g e.srcId).isSome)
  || (g.overrides.lookup (p.name ++ "." ++ f.name)).isSome
  || (match p.inputRes.lookup f.name with
      | some (some _) => true
      | _ => false)

/-- The diagnostics of the completeness check: one `unsatisfiedInput`
entry per registered pass and required-but-unsatisfied input field. -/
def unsatDiags (g : RenderGraph) : List Diag :=
  (g.passes.map (fun p =>
    (p.data.inputs.filter (fun f => f.required && !inputSatisfied g p f)).map
      (fun f => Diag.unsatisfiedInput p.name f.name))).flatten

/-- `isValid`: modelled from the spec — runs the cycle check, the
completeness check and the non-empty-outputs check, accumulating every
violation into one diagnostic log; the graph is valid iff the log is
empty. -/
def isValid (g : RenderGraph) : Bool × List Diag :=
  let rem := cycleRemaining g.edges
  let cycD : List Diag :=
    if rem.isEmpty then [] else [Diag.cycleDetected (rem.map (passNameOf g))]
  let outD : List Diag := if g.outputs.isEmpty then [Diag.emptyOutputSet] else []
  let log := cycD ++ unsatDiags g ++ outD
  (log.isEmpty, log)

/-! ## Compiler -/

/-- Whether a pass is ready to be scheduled: every edge into it from a
registered pass has its source already scheduled. -/
def isReady (g : RenderGraph) (done : List Nat) (pid : Nat) : Bool :=
  g.edges.all (fun e =>
    !(e.dstId = pid : Bool) || done.contains e.srcId || !(findPassById g e.srcId).isSome)

/-- Fuel-driven Kahn scheduling with the registry order as the stable
tie-break (spec section 4.6 step 1). -/
def topoAux (g : RenderGraph) : Nat → List Nat → List Nat → Option (List Nat)
  | 0, _, remaining => if remaining.isEmpty then some [] else none
  | fuel + 1, done, remaining =>
    if remaining.isEmpty then some []
    else
      let ready := remaining.filter (fun pid => isReady g done pid)
      if ready.isEmpty then none
      else
        match topoAux g fuel (done ++ ready)
            (remaining.filter (fun pid => !isReady g done pid)) with
        | some rest => some (ready ++ rest)
        | none => none

/-- Modelled from the spec: topologically order the registered passes
by edge dependency, insertion order as tie-break; `none` when no
order exists. -/
def topoSort (g : RenderGraph) : Option (List Nat) :=
  topoAux g g.passes.length [] (g.passes.map PassNode.pid)

/-- The override applied to a field, if any (`mOverridePassDatas`,
keyed by the `"pass.field"` address string). -/
def effectiveField (g : RenderGraph) (pname : String) (f : Field) : Field :=
  match g.overrides.lookup (pname ++ "." ++ f.name) with
  | some f' => f'
  | none => f

/-- Modelled from the spec: resolve the concrete shape for an output
field being allocated — a fixed policy uses the declared size, the
swap-chain policy uses the current `mSwapChainData`; derived-from-edge
is only legal on destination fields, so it has no shape here. -/
def shapeOf (g : RenderGraph) (f : Field) : Option (Nat × Nat) :=
  match f.dims with
  | .fixed w h => some (w, h)
  | .derivedFromSwapchain => some (g.swapW, g.swapH)
  | .derivedFromEdge => none

/-- Whether the pass already holds a bound (non-null) resource for an
output field. -/
def hasOutputRes (g : RenderGraph) (pid : Nat) (fname : String) : Bool :=
  (getOutputResById g pid fname).isSome

/-- Modelled from the spec (`createTextureForPass` + compile step 2):
allocate a fresh resource for every listed output field that lacks a
bound resource; the fresh resource id models the new shared object. -/
def allocFields (g : RenderGraph) (pid : Nat) (pname : String) :
    List Field → Except GraphError RenderGraph
  | [] => .ok g
  | f :: rest =>
    if hasOutputRes g pid f.name then allocFields g pid pname rest
    else
      let eff := effectiveField g pname f
      match shapeOf g eff with
      | none => .error .AllocationFailure
      | some (w, h) =>
        let r : Resource := ⟨g.nextResId, eff.format, w, h⟩
        allocFields
          { setOutputResById g pid f.name (some r) with nextResId := g.nextResId + 1 }
          pid pname rest

/-- Allocate all missing output resources of one pass. -/
def allocPass (g : RenderGraph) (pid : Nat) : Except GraphError RenderGraph :=
  match findPassById g pid with
  | none => .ok g
  | some p => allocFields g pid p.name p.data.outputs

/-- Modelled from the spec (compile step 3): propagate each of this
pass's resolved output resources to every edge's destination field —
the same shared resource (same id), not a copy. -/
def propagateFrom (g : RenderGraph) (pid : Nat) : RenderGraph :=
  g.edges.foldl
    (fun acc e =>
      if e.srcId = pid then
        match getOutputResById acc e.srcId e.srcField with
        | some r => setInputResById acc e.dstId e.dstField (some r)
        | none => acc
      else acc)
    g

/-- Allocate and propagate along the topological order. -/
def compileAux (g : RenderGraph) : List Nat → Except GraphError RenderGraph
  | [] => .ok g
  | pid :: rest =>
    match allocPass g pid with
    | .error e => .error e
    | .ok g1 => compileAux (propagateFrom g1 pid) rest

/-- `compile`: modelled from the spec — validate, topologically order,
allocate missing resources and propagate them along edges; clears the
dirty flag on success, leaves the graph untouched (hence still dirty)
on any failure. -/
def compile (g : RenderGraph) : Option GraphError × RenderGraph :=
  let v := isValid g
  if v.1 then
    match topoSort g with
    | none => (some (.CompileError v.2), g)
    | some order =>
      match compileAux g order with
      | .error e => (some e, g)
      | .ok g1 => (none, { g1 with mRecompile := false })
  else (some (.CompileError v.2), g)

/-! ## Executor -/

/-- The observable outcome of one `execute` call. -/
structure ExecResult where
  ranValidation : Bool
  err : Option GraphError
  dispatched : List String
  graph : RenderGraph
deriving Repr

/-- The dispatch order as pass names. -/
def dispatchNames (g : RenderGraph) : List String :=
  match topoSort g with
  | some order => order.map (passNameOf g)
  | none => []

/-- `execute`: modelled from the spec — when the graph is dirty, run
the validator and compiler first and abort with `CompileError` (no pass
dispatched) when either fails; otherwise dispatch every pass in
topological order. -/
def execute (g : RenderGraph) : ExecResult :=
  if g.mRecompile then
    let v := isValid g
    if v.1 then
      match compile g with
      | (none, g1) => ⟨true, none, dispatchNames g1, g1⟩
      | (some e, g1) => ⟨true, some e, [], g1⟩
    else ⟨true, some (.CompileError v.2), [], g⟩
  else ⟨false, none, dispatchNames g, g⟩

/-! ## Serialization -/

/-- Modelled from the spec: the structured document exchanged with the
serialization collaborator — pass list, name-addressed edge list,
name-addressed output list, and the overrides. -/
structure GraphDoc where
  passes : List (String × PassData)
  edges : List (String × String × String × String)
  outputs : List (String × String)
  overrides : List (String × Field)
deriving DecidableEq, Repr

/-- The name a pass reference serializes to, when it still resolves. -/
def idName (g : RenderGraph) (pid : Nat) : Option String :=
  (findPassById g pid).map PassNode.name

/-- The identity a pass name resolves to. -/
def nameId (g : RenderGraph) (n : String) : Option Nat :=
  (findPass g n).map PassNode.pid

/-- Serialize one edge as a name-addressed tuple; an edge whose pass
reference dangles has no name to serialize under and is dropped. -/
def serEdge (g : RenderGraph) (e : Edge) :
    Option (String × String × String × String) :=
  match idName g e.srcId, idName g e.dstId with
  | some a, some b => some (a, e.srcField, b, e.dstField)
  | _, _ => none

/-- Serialize one graph output as a name-addressed pair. -/
def serOut (g : RenderGraph) (o : GraphOut) : Option (String × String) :=
  (idName g o.pid).map (fun n => (n, o.field))

/-- `serializeJson`: modelled from the spec — export the graph's
topology (passes, edges, outputs, overrides) as a name-addressed
document. -/
def serializeJson (g : RenderGraph) : GraphDoc :=
  ⟨g.passes.map (fun p => (p.name, p.data)),
   g.edges.filterMap (serEdge g),
   g.outputs.filterMap (serOut g),
   g.overrides⟩

/-- Rebuild registry nodes from a serialized pass list, assigning fresh
consecutive identities. -/
def mkNodes : Nat → List (String × PassData) → List PassNode
  | _, [] => []
  | i, nd :: rest => ⟨nd.1, i, nd.2, [], []⟩ :: mkNodes (i + 1) rest

/-- The imported registry, before edges and outputs are resolved. -/
def docBase (doc : GraphDoc) : RenderGraph :=
  ⟨mkNodes 0 doc.passes, doc.passes.length, [], [], doc.overrides,
   true, 0, 0, .unknown, .unknown, 0⟩

/-- Resolve one serialized edge tuple against an imported registry. -/
def resolveEdgeDoc (b : RenderGraph) (t : String × String × String × String) :
    Option Edge :=
  match t with
  | (a, sf, c, df) =>
    match nameId b a, nameId b c with
    | some i, some j => some ⟨i, j, sf, df⟩
    | _, _ => none

/-- Resolve one serialized output pair against an imported registry. -/
def resolveOutDoc (b : RenderGraph) (t : String × String) : Option GraphOut :=
  (nameId b t.1).map (fun i => (⟨i, t.2⟩ : GraphOut))

/-- `deserializeJson`: modelled from the spec — import a document,
rebuilding the passes (fresh identities, document order), resolving
every edge's and output's pass names against the rebuilt registry,
and restoring the overrides; the imported graph starts dirty. -/
def deserializeJson (doc : GraphDoc) : RenderGraph :=
  { docBase doc with
     edges := doc.edges.filterMap (resolveEdgeDoc (docBase doc)),
     outputs := doc.outputs.filterMap (resolveOutDoc (docBase doc)) }

/-! ## Structural views used to compare graphs -/

/-- The registered pass names, in registration order. -/
def passNames (g : RenderGraph) : List String :=
  g.passes.map PassNode.name

/-- The canonicalized edge list: endpoints rendered as resolved pass
names (`none` for a dangling reference) plus the field names. -/
def canonEdges (g : RenderGraph) : List (Option String × String × Option String × String) :=
  g.edges.map (fun e => (idName g e.srcId, e.srcField, idName g e.dstId, e.dstField))

/-- The canonicalized output list. -/
def canonOuts (g : RenderGraph) : List (Option String × String) :=
  g.outputs.map (fun o => (idName g o.pid, o.field))

/-! ## Reachable states -/

/-- The graphs reachable from `create` through the public mutation,
compilation and execution operations. -/
inductive Reachable : RenderGraph → Prop where
  | created : Reachable RenderGraph.create
  | passAdded {g pd n} : Reachable g → Reachable (addRenderPass g pd n).2
  | passRemoved {g n} : Reachable g → Reachable (removeRenderPass g n).2
  | edgeAdded {g s d} : Reachable g → Reachable (addEdge g s d).2
  | edgeRemoved {g s d} : Reachable g → Reachable (removeEdge g s d).2
  | outMarked {g s} : Reachable g → Reachable (markGraphOutput g s).2
  | outUnmarked {g s} : Reachable g → Reachable (unmarkGraphOutput g s).2
  | inputBound {g s r} : Reachable g → Reachable (setInput g s r).2
  | outputBound {g s r} : Reachable g → Reachable (setOutput g s r).2
  | resized {g w h} : Reachable g → Reachable (onResizeSwapChain g w h)
  | compiled {g} : Reachable g → Reachable (compile g).2
  | executed {g} : Reachable g → Reachable (execute g).graph

/-- At most one edge terminates at any given destination field. -/
def uniqueDst (g : RenderGraph) : Prop :=
  ∀ pid f, g.edges.countP (fun e => e.dstId = pid ∧ e.dstField = f) ≤ 1

/-- All pass references held by edges and outputs resolve against the
registry, and registry names and identities are distinct: the
well-formedness that `removeRenderPass` (which does not cascade) can
transiently break. -/
def WellFormedRefs (g : RenderGraph) : Prop :=
  (g.passes.map PassNode.name).Nodup ∧
  (g.passes.map PassNode.pid).Nodup ∧
  (∀ e ∈ g.edges, (findPassById g e.srcId).isSome ∧ (findPassById g e.dstId).isSome) ∧
  (∀ o ∈ g.outputs, (findPassById g o.pid).isSome)

/-! ## Concrete scenario graphs -/

/-- An output field with fixed 64×64 shape. -/
def fix64Out : Field := ⟨"out", .rgba8, .fixed 64 64, false⟩

/-- A required input field whose shape derives from the incoming edge. -/
def edgeIn : Field := ⟨"in", .rgba8, .derivedFromEdge, true⟩

/-- `P1`: one fixed-shape output, no inputs. -/
def passData1 : PassData := ⟨[], [fix64Out]⟩

/-- `P2`: one derived-from-edge input and one fixed output. -/
def passData2 : PassData := ⟨[edgeIn], [⟨"out", .rgba8, .fixed 32 32, false⟩]⟩

/-- `P3`: one derived-from-edge input, no outputs. -/
def passData3 : PassData := ⟨[edgeIn], []⟩

/-- `create` + `addRenderPass P1`. -/
def demoA : RenderGraph := (addRenderPass RenderGraph.create passData1 "P1").2

/-- Then `addRenderPass P2`. -/
def demoB : RenderGraph := (addRenderPass demoA passData2 "P2").2

/-- Then `addRenderPass P3`. -/
def demoC : RenderGraph := (addRenderPass demoB passData3 "P3").2

/-- Then `markGraphOutput "P2.out"`. -/
def demoD : RenderGraph := (markGraphOutput demoC "P2.out").2

/-- Then `addEdge "P1.out" "P2.in"`. -/
def demoE : RenderGraph := (addEdge demoD "P1.out" "P2.in").2

/-- Then `addEdge "P1.out" "P3.in"` (fan-out from `P1.out`). -/
def demoF : RenderGraph := (addEdge demoE "P1.out" "P3.in").2

/-- The dangling-edge scenario: `P1`, `P2`, output `P2.out` marked. -/
def dangMark : RenderGraph := (markGraphOutput demoB "P2.out").2

/-- Then edge `P1.out -> P2.in`. -/
def dangEdge : RenderGraph := (addEdge dangMark "P1.out" "P2.in").2

/-- Then `removeRenderPass "P1"`: the edge now references a removed
pass. -/
def dangling : RenderGraph := (removeRenderPass dangEdge "P1").2

/-- A pass shape used for the two-pass cycle scenario. -/
def cycData : PassData :=
  ⟨[⟨"in", .rgba8, .derivedFromEdge, true⟩], [⟨"out", .rgba8, .fixed 8 8, false⟩]⟩

/-- `create` + pass `A`. -/
def cycA : RenderGraph := (addRenderPass RenderGraph.create cycData "A").2

/-- Then pass `B`. -/
def cycB : RenderGraph := (addRenderPass cycA cycData "B").2

/-- Then edge `A.out -> B.in`. -/
def cycE1 : RenderGraph := (addEdge cycB "A.out" "B.in").2

/-- Then edge `B.out -> A.in`: the edge table now holds the two-pass
cycle `A → B → A`. -/
def cycE2 : RenderGraph := (addEdge cycE1 "B.out" "A.in").2

/-! ## Basic lemmas -/

theorem isEmpty_false_of_mem {α : Type} {x : α} {l : List α} (h : x ∈ l) :
    l.isEmpty = false := by
  cases l with
  | nil => cases h
  | cons a t => rfl

/-- The validity bit is exactly emptiness of the diagnostic log. -/
theorem isValid_fst (g : RenderGraph) : (isValid g).1 = (isValid g).2.isEmpty := rfl

theorem invalid_of_mem_log {g : RenderGraph} {x : Diag} (h : x ∈ (isValid g).2) :
    (isValid g).1 = false := by
  rw [isValid_fst]
  exact isEmpty_false_of_mem h

/-- The diagnostic log decomposes into the cycle, completeness and
output-set sections. -/
theorem isValid_snd (g : RenderGraph) :
    (isValid g).2 =
      (if (cycleRemaining g.edges).isEmpty then []
       else [Diag.cycleDetected ((cycleRemaining g.edges).map (passNameOf g))]) ++
      unsatDiags g ++
      (if g.outputs.isEmpty then [Diag.emptyOutputSet] else []) := rfl

/-! ## C2: empty output set -/

/-- C2: for every graph whose graph-output set is empty, `isValid`
returns `false` and the log reports the `EmptyOutputSet` violation. -/
theorem emptyOutputSetInvalid (g : RenderGraph) (h : g.outputs = []) :
    (isValid g).1 = false ∧ Diag.emptyOutputSet ∈ (isValid g).2 := by
  have hmem : Diag.emptyOutputSet ∈ (isValid g).2 := by
    rw [isValid_snd, h]
    simp
  exact ⟨invalid_of_mem_log hmem, hmem⟩

/-- Witness for C2: the freshly created graph has no edges and no
marked outputs and is reported invalid with `EmptyOutputSet`. -/
theorem emptyOutputSetInstance :
    RenderGraph.create.outputs = [] ∧
    (isValid RenderGraph.create).1 = false ∧
    Diag.emptyOutputSet ∈ (isValid RenderGraph.create).2 :=
  ⟨rfl, emptyOutputSetInvalid RenderGraph.create rfl⟩

/-! ## C10: fresh graphs start dirty -/

/-- C10: `mRecompile` is initialized `true` (header line 153), so a
freshly created graph is dirty, and `execute` on any dirty graph runs
the validator/compiler step before dispatching. -/
theorem freshGraphDirty :
    RenderGraph.create.mRecompile = true ∧
    (∀ g : RenderGraph, g.mRecompile = true → (execute g).ranValidation = true) := by
  refine ⟨rfl, fun g h => ?_⟩
  unfold execute
  rw [h]
  simp only [if_true]
  split
  · split
    · rfl
    · rfl
  · rfl

/-- Witness for C10: the first `execute` after `create` runs the
validator (and, the fresh graph being invalid, dispatches nothing). -/
theorem freshGraphDirtyInstance :
    RenderGraph.create.mRecompile = true ∧
    (execute RenderGraph.create).ranValidation = true :=
  ⟨freshGraphDirty.1, freshGraphDirty.2 RenderGraph.create freshGraphDirty.1⟩

/-! ## C3: duplicate pass names -/

/-- C3: a second `addRenderPass` under an already-registered name fails
with `DuplicateName`, leaves the whole graph (in particular the pass
registry) unchanged, and the originally registered pass is still the
one stored under that name. -/
theorem duplicateNameRejected (g : RenderGraph) (n : String) (pd : PassData)
    (p0 : PassNode) (h : findPass g n = some p0) :
    addRenderPass g pd n = (some .DuplicateName, g) ∧
    findPass (addRenderPass g pd n).2 n = some p0 := by
  have h' : g.passes.find? (fun p => p.name = n) = some p0 := h
  have hany : g.passes.any (fun p => p.name = n) = true := by
    refine List.any_eq_true.mpr ⟨p0, List.mem_of_find?_eq_some h', ?_⟩
    simpa using List.find?_some h'
  have h1 : addRenderPass g pd n = (some .DuplicateName, g) := by
    unfold addRenderPass
    rw [hany]
    rfl
  refine ⟨h1, ?_⟩
  rw [h1]
  exact h

/-- Witness for C3: re-adding the name `"P2"` to the demo graph fails
with `DuplicateName` and the original `P2` node stays registered. -/
theorem duplicateNameRejectedInstance :
    addRenderPass demoB passData3 "P2" = (some .DuplicateName, demoB) ∧
    findPass (addRenderPass demoB passData3 "P2").2 "P2" =
      some ⟨"P2", 1, passData2, [], []⟩ :=
  duplicateNameRejected demoB "P2" passData3 ⟨"P2", 1, passData2, [], []⟩ (by decide)

/-! ## C9: dangling edges resolve as missing requirements -/

/-- C9: `isValid` is a total function (it always terminates), and for
every registered pass with a required input field that no resolvable
incoming edge, override or bound resource satisfies — in particular an
input whose only incoming edge references a removed pass — it reports
the graph invalid with an `UnsatisfiedInput` diagnostic naming that
pass and field. -/
theorem danglingUnsatisfied (g : RenderGraph) (p : PassNode) (f : Field)
    (hp : p ∈ g.passes) (hf : f ∈ p.data.inputs) (hreq : f.required = true)
    (hsat : inputSatisfied g p f = false) :
    (isValid g).1 = false ∧
    Diag.unsatisfiedInput p.name f.name ∈ (isValid g).2 := by
  have hd : Diag.unsatisfiedInput p.name f.name ∈ unsatDiags g := by
    unfold unsatDiags
    refine List.mem_flatten.mpr ⟨_, List.mem_map.mpr ⟨p, hp, rfl⟩, ?_⟩
    refine List.mem_map.mpr ⟨f, List.mem_filter.mpr ⟨hf, ?_⟩, rfl⟩
    simp [hreq, hsat]
  have hmem : Diag.unsatisfiedInput p.name f.name ∈ (isValid g).2 := by
    rw [isValid_snd]
    exact List.mem_append.mpr (Or.inl (List.mem_append.mpr (Or.inr hd)))
  exact ⟨invalid_of_mem_log hmem, hmem⟩

/-- Witness for C9: after removing `P1` while the edge
`P1.out -> P2.in` still references it, validation reports
`UnsatisfiedInput` for `P2.in` instead of crashing: the dangling edge
does not satisfy the input. -/
theorem danglingUnsatisfiedInstance :
    (⟨"P2", 1, passData2, [], []⟩ : PassNode) ∈ dangling.passes ∧
    ((isValid dangling).1 = false ∧
     Diag.unsatisfiedInput "P2" "in" ∈ (isValid dangling).2) :=
  ⟨by decide,
   danglingUnsatisfied dangling ⟨"P2", 1, passData2, [], []⟩ edgeIn
     (by decide) (by decide) (by decide) (by decide)⟩

/-! ## C7: output-set marking laws -/

theorem resolveOutAddr_passes_eq {g1 g2 : RenderGraph} (h : g1.passes = g2.passes)
    (s : String) : resolveOutAddr g1 s = resolveOutAddr g2 s := by
  unfold resolveOutAddr findPass
  rw [h]

theorem mem_insertOut_of_mem {outs : List GraphOut} {x : GraphOut} (o : GraphOut)
    (h : x ∈ outs) : x ∈ insertOut outs o := by
  unfold insertOut
  split
  · exact h
  · exact List.mem_append.mpr (Or.inl h)

theorem mem_insertOut_self (outs : List GraphOut) (o : GraphOut) :
    o ∈ insertOut outs o := by
  unfold insertOut
  split
  · assumption
  · simp

theorem mem_foldl_insertOut_of_mem {outs : List GraphOut} {x : GraphOut}
    (l : List GraphOut) (h : x ∈ outs) : x ∈ l.foldl insertOut outs := by
  induction l generalizing outs with
  | nil => exact h
  | cons a t ih => exact ih (mem_insertOut_of_mem a h)

theorem mem_foldl_insertOut {x : GraphOut} (outs l : List GraphOut)
    (h : x ∈ l) : x ∈ l.foldl insertOut outs := by
  induction l generalizing outs with
  | nil => cases h
  | cons a t ih =>
    simp only [List.foldl_cons]
    rcases List.mem_cons.mp h with rfl | h'
    · exact mem_foldl_insertOut_of_mem t (mem_insertOut_self outs x)
    · exact ih (insertOut outs a) h'

theorem foldl_insertOut_id {outs : List GraphOut} {l : List GraphOut}
    (h : ∀ x ∈ l, x ∈ outs) : l.foldl insertOut outs = outs := by
  induction l with
  | nil => rfl
  | cons a t ih =>
    have ha : insertOut outs a = outs := by
      unfold insertOut
      exact if_pos (h a (List.mem_cons_self a t))
    simp only [List.foldl_cons, ha]
    exact ih (fun x hx => h x (List.mem_cons_of_mem a hx))

theorem markGraphOutput_ok {g : RenderGraph} {s : String} {es : List GraphOut}
    (hres : resolveOutAddr g s = .ok es) :
    markGraphOutput g s =
      (none, { g with outputs := es.foldl insertOut g.outputs, mRecompile := true }) := by
  unfold markGraphOutput
  rw [hres]

theorem markGraphOutput_err {g : RenderGraph} {s : String} {e : GraphError}
    (hres : resolveOutAddr g s = .error e) :
    markGraphOutput g s = (some e, g) := by
  unfold markGraphOutput
  rw [hres]

/-- C7: `markGraphOutput` is idempotent on the output set, and
`unmarkGraphOutput` on an address none of whose resolved entries is in
the output set leaves the output set unchanged. -/
theorem markOutputIdempotent :
    (∀ (g : RenderGraph) (s : String),
      ((markGraphOutput (markGraphOutput g s).2 s).2).outputs =
        ((markGraphOutput g s).2).outputs) ∧
    (∀ (g : RenderGraph) (s : String) (es : List GraphOut),
      resolveOutAddr g s = .ok es → (∀ x ∈ es, x ∉ g.outputs) →
      ((unmarkGraphOutput g s).2).outputs = g.outputs) := by
  constructor
  · intro g s
    cases hres : resolveOutAddr g s with
    | error e =>
      have h1 : markGraphOutput g s = (some e, g) := markGraphOutput_err hres
      have h2 : (markGraphOutput g s).2 = g := by rw [h1]
      simp only [h2]
    | ok es =>
      have h1 : markGraphOutput g s =
          (none, { g with outputs := es.foldl insertOut g.outputs, mRecompile := true }) :=
        markGraphOutput_ok hres
      have hpasses : ((markGraphOutput g s).2).passes = g.passes := by rw [h1]
      have hres2 : resolveOutAddr (markGraphOutput g s).2 s = .ok es := by
        rw [resolveOutAddr_passes_eq hpasses s, hres]
      have h2 := markGraphOutput_ok hres2
      have houts : ((markGraphOutput g s).2).outputs = es.foldl insertOut g.outputs := by
        rw [h1]
      rw [h2]
      show es.foldl insertOut ((markGraphOutput g s).2).outputs =
        ((markGraphOutput g s).2).outputs
      rw [houts]
      exact foldl_insertOut_id (fun x hx => mem_foldl_insertOut g.outputs es hx)
  · intro g s es hres hnot
    have h1 : (unmarkGraphOutput g s).2 =
        { g with
           outputs := g.outputs.filter (fun o => !(decide (o ∈ es))),
           mRecompile := true } := by
      unfold unmarkGraphOutput
      rw [hres]
    rw [h1]
    refine List.filter_eq_self.mpr (fun o ho => ?_)
    simp only [Bool.not_eq_true', decide_eq_false_iff_not]
    intro hoes
    exact hnot o hoes ho

/-- Witness for C7: marking `"P2.out"` twice on the demo graph equals
marking it once, and unmarking it while it is not marked leaves the
output set unchanged. -/
theorem markOutputIdempotentInstance :
    ((markGraphOutput (markGraphOutput demoC "P2.out").2 "P2.out").2).outputs =
      ((markGraphOutput demoC "P2.out").2).outputs ∧
    ((unmarkGraphOutput demoC "P2.out").2).outputs = demoC.outputs :=
  ⟨markOutputIdempotent.1 demoC "P2.out",
   markOutputIdempotent.2 demoC "P2.out" [⟨1, "out"⟩] rfl (by decide)⟩

/-! ## C1: directed cycles are rejected -/

theorem chain_pred {R : Nat → Nat → Prop} :
    ∀ (l : List Nat) (u v : Nat), List.Chain R u (l ++ [v]) →
      (∀ b ∈ l, ∃ a ∈ u :: l, R a b) ∧ (∃ a ∈ u :: l, R a v) := by
  intro l
  induction l with
  | nil =>
    intro u v h
    rw [List.nil_append, List.chain_cons] at h
    exact ⟨fun b hb => absurd hb (List.not_mem_nil b),
           ⟨u, List.mem_cons_self u [], h.1⟩⟩
  | cons c t ih =>
    intro u v h
    rw [List.cons_append, List.chain_cons] at h
    obtain ⟨H1, H2⟩ := ih c v h.2
    constructor
    · intro b hb
      rcases List.mem_cons.mp hb with rfl | hb'
      · exact ⟨u, List.mem_cons_self u (b :: t), h.1⟩
      · obtain ⟨a, ha, hr⟩ := H1 b hb'
        exact ⟨a, List.mem_cons_of_mem u ha, hr⟩
    · obtain ⟨a, ha, hr⟩ := H2
      exact ⟨a, List.mem_cons_of_mem u ha, hr⟩

/-- Every vertex of a closed walk has a predecessor on the walk. -/
theorem cycle_support {R : Nat → Nat → Prop} (v : Nat) (l : List Nat)
    (h : List.Chain R v (l ++ [v])) : ∀ b ∈ v :: l, ∃ a ∈ v :: l, R a b := by
  obtain ⟨H1, H2⟩ := chain_pred l v v h
  intro b hb
  rcases List.mem_cons.mp hb with rfl | hb'
  · exact H2
  · exact H1 b hb'

/-- A set of vertices in which every vertex has a predecessor survives
every round of the elimination-based cycle check. -/
theorem support_subset_iterate (edges : List Edge) (S : List Nat)
    (hS : ∀ b ∈ S, ∃ a ∈ S, edgeRel edges a b) :
    ∀ (n : Nat) (ns : List Nat), (∀ b ∈ S, b ∈ ns) →
      ∀ b ∈ S, b ∈ Nat.iterate (stepElim edges) n ns := by
  intro n
  induction n with
  | zero => intro ns hsub b hb; exact hsub b hb
  | succ k ih =>
    intro ns hsub b hb
    rw [Function.iterate_succ_apply]
    refine ih (stepElim edges ns) ?_ b hb
    intro b' hb'
    unfold stepElim
    refine List.mem_filter.mpr ⟨hsub b' hb', ?_⟩
    obtain ⟨a, haS, e, he, hsrc, hdst⟩ := hS b' hb'
    refine List.any_eq_true.mpr ⟨e, he, ?_⟩
    have hans : e.srcId ∈ ns := hsrc ▸ hsub a haS
    simp [hdst, hans]

/-- C1: whenever the edge table contains a directed cycle (a closed
`edgeRel` walk `v → … → v`), `isValid` returns `false`, and the
diagnostic log carries a cycle diagnostic whose name list contains the
name of every registered pass on the cycle. -/
theorem cycleRejected (g : RenderGraph) (v : Nat) (l : List Nat)
    (h : List.Chain (edgeRel g.edges) v (l ++ [v])) :
    (isValid g).1 = false ∧
    ∃ names, Diag.cycleDetected names ∈ (isValid g).2 ∧
      ∀ w ∈ v :: l, ∀ p, findPassById g w = some p → p.name ∈ names := by
  have hsupp : ∀ b ∈ v :: l, ∃ a ∈ v :: l, edgeRel g.edges a b := cycle_support v l h
  have hnodes : ∀ b ∈ v :: l, b ∈ nodesOf g.edges := by
    intro b hb
    obtain ⟨a, _, e, he, _, hdst⟩ := hsupp b hb
    unfold nodesOf
    exact List.mem_dedup.mpr
      (List.mem_append.mpr (Or.inr (List.mem_map.mpr ⟨e, he, hdst⟩)))
  have hrem : ∀ b ∈ v :: l, b ∈ cycleRemaining g.edges :=
    support_subset_iterate g.edges (v :: l) hsupp (nodesOf g.edges).length
      (nodesOf g.edges) hnodes
  have hv : v ∈ cycleRemaining g.edges := hrem v (List.mem_cons_self v l)
  have hne : (cycleRemaining g.edges).isEmpty = false := isEmpty_false_of_mem hv
  have hmem : Diag.cycleDetected ((cycleRemaining g.edges).map (passNameOf g)) ∈
      (isValid g).2 := by
    rw [isValid_snd, hne]
    simp
  refine ⟨invalid_of_mem_log hmem,
    (cycleRemaining g.edges).map (passNameOf g), hmem, ?_⟩
  intro w hw p hp
  have hwn : passNameOf g w ∈ (cycleRemaining g.edges).map (passNameOf g) :=
    List.mem_map.mpr ⟨w, hrem w hw, rfl⟩
  have : passNameOf g w = p.name := by
    unfold passNameOf
    rw [hp]
  rwa [this] at hwn

/-- Witness for C1: adding `A.out -> B.in` and `B.out -> A.in` closes a
two-pass cycle; validation fails and the cycle diagnostic names both
`A` and `B`. -/
theorem cycleRejectedInstance :
    List.Chain (edgeRel cycE2.edges) 0 ([1] ++ [0]) ∧
    ((isValid cycE2).1 = false ∧
     ∃ names, Diag.cycleDetected names ∈ (isValid cycE2).2 ∧
       ∀ w ∈ 0 :: [1], ∀ p, findPassById cycE2 w = some p → p.name ∈ names) :=
  have hchain : List.Chain (edgeRel cycE2.edges) 0 ([1] ++ [0]) :=
    List.Chain.cons ⟨⟨0, 1, "out", "in"⟩, by decide, rfl, rfl⟩
      (List.Chain.cons ⟨⟨1, 0, "out", "in"⟩, by decide, rfl, rfl⟩ List.Chain.nil)
  ⟨hchain, cycleRejected cycE2 0 [1] hchain⟩

/-! ## C4: the dirty-flag state machine -/

/-- C4: the dirty flag follows the {Clean, Dirty} state machine — every
mutating operation that succeeds leaves the graph Dirty
(`onResizeSwapChain` always succeeds), a successful compile moves it to
Clean, and a failed compile leaves a dirty graph Dirty. -/
theorem dirtyFlagMachine :
    (∀ (g : RenderGraph) (pd : PassData) (n : String),
       (addRenderPass g pd n).1 = none → (addRenderPass g pd n).2.mRecompile = true) ∧
    (∀ (g : RenderGraph) (n : String),
       (removeRenderPass g n).1 = none → (removeRenderPass g n).2.mRecompile = true) ∧
    (∀ (g : RenderGraph) (s d : String),
       (addEdge g s d).1 = none → (addEdge g s d).2.mRecompile = true) ∧
    (∀ (g : RenderGraph) (s d : String),
       (removeEdge g s d).1 = none → (removeEdge g s d).2.mRecompile = true) ∧
    (∀ (g : RenderGraph) (s : String),
       (markGraphOutput g s).1 = none → (markGraphOutput g s).2.mRecompile = true) ∧
    (∀ (g : RenderGraph) (s : String),
       (unmarkGraphOutput g s).1 = none → (unmarkGraphOutput g s).2.mRecompile = true) ∧
    (∀ (g : RenderGraph) (s : String) (r : Option Resource),
       (setOutput g s r).1 = none → (setOutput g s r).2.mRecompile = true) ∧
    (∀ (g : RenderGraph) (w h : Nat), (onResizeSwapChain g w h).mRecompile = true) ∧
    (∀ g : RenderGraph, (compile g).1 = none → (compile g).2.mRecompile = false) ∧
    (∀ (g : RenderGraph) (e : GraphError),
       g.mRecompile = true → (compile g).1 = some e → (compile g).2.mRecompile = true) := by
  refine ⟨?_, ?_, ?_, ?_, ?_, ?_, ?_, ?_, ?_, ?_⟩
  · intro g pd n
    unfold addRenderPass
    split <;> simp
  · intro g n
    unfold removeRenderPass
    split <;> simp
  · intro g s d
    unfold addEdge
    split
    · simp
    · split
      · simp
      · split_ifs <;> simp
  · intro g s d
    unfold removeEdge
    split
    · simp
    · split
      · simp
      · dsimp only
        split_ifs <;> simp
  · intro g s
    unfold markGraphOutput
    split <;> simp
  · intro g s
    unfold unmarkGraphOutput
    split <;> simp
  · intro g s r
    unfold setOutput
    split <;> simp
  · intro g w h
    rfl
  · intro g
    simp only [compile]
    split
    · split
      · simp
      · split <;> simp
    · simp
  · intro g e hdirty
    simp only [compile]
    split
    · split
      · simp [hdirty]
      · split
        · simp [hdirty]
        · simp
    · simp [hdirty]

/-- Witness for C4: concrete successful calls of every mutating
operation leave the graph Dirty; compiling the valid demo graph moves
it to Clean; the failed compile of the fresh (empty, invalid) graph
leaves it Dirty. -/
theorem dirtyFlagMachineInstance :
    (addRenderPass RenderGraph.create passData1 "P1").2.mRecompile = true ∧
    (removeRenderPass demoA "P1").2.mRecompile = true ∧
    (addEdge demoD "P1.out" "P2.in").2.mRecompile = true ∧
    (removeEdge demoE "P1.out" "P2.in").2.mRecompile = true ∧
    (markGraphOutput demoC "P2.out").2.mRecompile = true ∧
    (unmarkGraphOutput demoD "P2.out").2.mRecompile = true ∧
    (setOutput demoC "P2.out" none).2.mRecompile = true ∧
    (onResizeSwapChain demoF 1920 1080).mRecompile = true ∧
    (compile demoF).2.mRecompile = false ∧
    (compile RenderGraph.create).2.mRecompile = true :=
  ⟨dirtyFlagMachine.1 RenderGraph.create passData1 "P1" rfl,
   dirtyFlagMachine.2.1 demoA "P1" rfl,
   dirtyFlagMachine.2.2.1 demoD "P1.out" "P2.in" rfl,
   dirtyFlagMachine.2.2.2.1 demoE "P1.out" "P2.in" rfl,
   dirtyFlagMachine.2.2.2.2.1 demoC "P2.out" rfl,
   dirtyFlagMachine.2.2.2.2.2.1 demoD "P2.out" rfl,
   dirtyFlagMachine.2.2.2.2.2.2.1 demoC "P2.out" none rfl,
   dirtyFlagMachine.2.2.2.2.2.2.2.1 demoF 1920 1080,
   dirtyFlagMachine.2.2.2.2.2.2.2.2.1 demoF rfl,
   dirtyFlagMachine.2.2.2.2.2.2.2.2.2 RenderGraph.create
     (.CompileError [Diag.emptyOutputSet]) rfl rfl⟩

/-! ## C5: destination fields are single-assignment -/

theorem uniqueDst_of_edges_eq {g g' : RenderGraph} (he : g'.edges = g.edges)
    (h : uniqueDst g) : uniqueDst g' := by
  intro pid f
  rw [he]
  exact h pid f

theorem addRenderPass_edges (g : RenderGraph) (pd : PassData) (n : String) :
    (addRenderPass g pd n).2.edges = g.edges := by
  unfold addRenderPass
  split <;> rfl

theorem removeRenderPass_edges (g : RenderGraph) (n : String) :
    (removeRenderPass g n).2.edges = g.edges := by
  unfold removeRenderPass
  split <;> rfl

theorem markGraphOutput_edges (g : RenderGraph) (s : String) :
    (markGraphOutput g s).2.edges = g.edges := by
  unfold markGraphOutput
  split <;> rfl

theorem unmarkGraphOutput_edges (g : RenderGraph) (s : String) :
    (unmarkGraphOutput g s).2.edges = g.edges := by
  unfold unmarkGraphOutput
  split <;> rfl

theorem setInput_edges (g : RenderGraph) (s : String) (r : Option Resource) :
    (setInput g s r).2.edges = g.edges := by
  unfold setInput
  split <;> rfl

theorem setOutput_edges (g : RenderGraph) (s : String) (r : Option Resource) :
    (setOutput g s r).2.edges = g.edges := by
  unfold setOutput
  split <;> rfl

theorem foldl_edges {f : RenderGraph → Edge → RenderGraph}
    (hf : ∀ acc e, (f acc e).edges = acc.edges) :
    ∀ (l : List Edge) (g : RenderGraph), (l.foldl f g).edges = g.edges := by
  intro l
  induction l with
  | nil => intro g; rfl
  | cons e t ih =>
    intro g
    rw [List.foldl_cons, ih (f g e), hf g e]

theorem propagateFrom_edges (g : RenderGraph) (pid : Nat) :
    (propagateFrom g pid).edges = g.edges := by
  unfold propagateFrom
  apply foldl_edges
  intro acc e
  dsimp only
  split
  · split <;> rfl
  · rfl

theorem allocFields_edges :
    ∀ (fs : List Field) (g : RenderGraph) (pid : Nat) (pn : String) (g' : RenderGraph),
      allocFields g pid pn fs = .ok g' → g'.edges = g.edges := by
  intro fs
  induction fs with
  | nil =>
    intro g pid pn g' h
    injection h with h'
    rw [← h']
  | cons f rest ih =>
    intro g pid pn g' h
    unfold allocFields at h
    split at h
    · exact ih g pid pn g' h
    · dsimp only at h
      split at h
      · cases h
      · rw [ih _ pid pn g' h]
        rfl

theorem allocPass_edges {g : RenderGraph} {pid : Nat} {g' : RenderGraph}
    (h : allocPass g pid = .ok g') : g'.edges = g.edges := by
  unfold allocPass at h
  split at h
  · injection h with h'
    rw [← h']
  · exact allocFields_edges _ g pid _ g' h

theorem compileAux_edges :
    ∀ (order : List Nat) (g g' : RenderGraph),
      compileAux g order = .ok g' → g'.edges = g.edges := by
  intro order
  induction order with
  | nil =>
    intro g g' h
    injection h with h'
    rw [← h']
  | cons pid rest ih =>
    intro g g' h
    unfold compileAux at h
    split at h
    · cases h
    · rename_i g1 heq
      rw [ih _ g' h, propagateFrom_edges, allocPass_edges heq]

theorem compile_edges (g : RenderGraph) : (compile g).2.edges = g.edges := by
  simp only [compile]
  split
  · split
    · rfl
    · split
      · rfl
      · rename_i g1 heq
        exact compileAux_edges _ g g1 heq
  · rfl

theorem execute_edges (g : RenderGraph) : (execute g).graph.edges = g.edges := by
  unfold execute
  split
  · dsimp only
    split
    · split
      · rename_i g1 heq
        have hg1 : g1 = (compile g).2 := by rw [heq]
        rw [hg1]
        exact compile_edges g
      · rename_i e g1 heq
        have hg1 : g1 = (compile g).2 := by rw [heq]
        rw [hg1]
        exact compile_edges g
    · rfl
  · rfl

theorem countP_append_singleton_le (l : List Edge) (e : Edge) (p : Edge → Bool)
    (hl : l.countP p ≤ 1) (hz : p e = true → l.countP p = 0) :
    (l ++ [e]).countP p ≤ 1 := by
  rw [List.countP_append]
  by_cases hp : p e = true
  · rw [hz hp]
    simp [List.countP_cons, hp]
  · have h1 : List.countP p [e] = 0 := by
      simp only [List.countP_cons, List.countP_nil, hp]
      simp
    rw [h1]
    simpa using hl

theorem addEdge_uniqueDst {g : RenderGraph} (s d : String) (h : uniqueDst g) :
    uniqueDst (addEdge g s d).2 := by
  unfold addEdge
  split
  · exact h
  · split
    · exact h
    · rename_i ps fs hs pd fd hd
      split_ifs with h1 h2 h3
      · exact h
      · exact h
      · exact h
      · intro pid f
        dsimp only
        refine countP_append_singleton_le _ _ _ (h pid f) ?_
        intro hp
        have hp' : pd.pid = pid ∧ fd.name = f := by simpa using hp
        refine List.countP_eq_zero.mpr ?_
        intro a ha
        simp only [decide_eq_true_eq]
        rw [← hp'.1, ← hp'.2]
        intro hcontra
        exact h2 (List.any_eq_true.mpr ⟨a, ha, by simpa using hcontra⟩)

theorem removeEdge_uniqueDst {g : RenderGraph} (s d : String) (h : uniqueDst g) :
    uniqueDst (removeEdge g s d).2 := by
  unfold removeEdge
  split
  · exact h
  · split
    · exact h
    · dsimp only
      split_ifs
      · intro pid f
        show ((g.edges.filter _).countP _) ≤ 1
        exact le_trans (List.Sublist.countP_le _ (List.filter_sublist _)) (h pid f)
      · exact h

theorem reachable_uniqueDst : ∀ g : RenderGraph, Reachable g → uniqueDst g := by
  intro g hr
  induction hr with
  | created => intro pid f; simp [RenderGraph.create]
  | passAdded hg ih => exact uniqueDst_of_edges_eq (addRenderPass_edges _ _ _) ih
  | passRemoved hg ih => exact uniqueDst_of_edges_eq (removeRenderPass_edges _ _) ih
  | edgeAdded hg ih => exact addEdge_uniqueDst _ _ ih
  | edgeRemoved hg ih => exact removeEdge_uniqueDst _ _ ih
  | outMarked hg ih => exact uniqueDst_of_edges_eq (markGraphOutput_edges _ _) ih
  | outUnmarked hg ih => exact uniqueDst_of_edges_eq (unmarkGraphOutput_edges _ _) ih
  | inputBound hg ih => exact uniqueDst_of_edges_eq (setInput_edges _ _ _) ih
  | outputBound hg ih => exact uniqueDst_of_edges_eq (setOutput_edges _ _ _) ih
  | resized hg ih => exact uniqueDst_of_edges_eq rfl ih
  | compiled hg ih => exact uniqueDst_of_edges_eq (compile_edges _) ih
  | executed hg ih => exact uniqueDst_of_edges_eq (execute_edges _) ih

/-- C5: destination fields are single-assignment — (i) in every graph
reachable by any sequence of operations, at most one edge terminates at
any given destination field; (ii) `addEdge` fails with
`FieldAlreadyBound` (leaving the graph unchanged) when an edge already
terminates at the resolved destination field; (iii) when the
destination field is free and the contracts are compatible, `addEdge`
succeeds and appends the edge — with no condition on how many edges
already originate from the same source field (fan-out is accepted). -/
theorem destSingleAssignment :
    (∀ g : RenderGraph, Reachable g → uniqueDst g) ∧
    (∀ (g : RenderGraph) (s d : String) (ps : PassNode) (fs : Field)
       (pd : PassNode) (fd : Field),
       resolveField g s false = .ok (ps, fs) →
       resolveField g d true = .ok (pd, fd) →
       ps.pid ≠ pd.pid →
       (∃ e ∈ g.edges, e.dstId = pd.pid ∧ e.dstField = fd.name) →
       addEdge g s d = (some .FieldAlreadyBound, g)) ∧
    (∀ (g : RenderGraph) (s d : String) (ps : PassNode) (fs : Field)
       (pd : PassNode) (fd : Field),
       resolveField g s false = .ok (ps, fs) →
       resolveField g d true = .ok (pd, fd) →
       ps.pid ≠ pd.pid →
       (¬ ∃ e ∈ g.edges, e.dstId = pd.pid ∧ e.dstField = fd.name) →
       compatibleFields fs fd = true →
       (addEdge g s d).1 = none ∧
       (addEdge g s d).2.edges =
         g.edges ++ [⟨ps.pid, pd.pid, fs.name, fd.name⟩]) := by
  refine ⟨reachable_uniqueDst, ?_, ?_⟩
  · intro g s d ps fs pd fd hs hd hne hex
    have hb : (g.edges.any fun e => decide (e.dstId = pd.pid ∧ e.dstField = fd.name)) = true := by
      obtain ⟨e, he, h1, h2⟩ := hex
      exact List.any_eq_true.mpr ⟨e, he, by simp [h1, h2]⟩
    unfold addEdge
    simp only [hs, hd]
    rw [if_neg hne, if_pos hb]
  · intro g s d ps fs pd fd hs hd hne hnex hcomp
    have hb : (g.edges.any fun e => decide (e.dstId = pd.pid ∧ e.dstField = fd.name)) = false := by
      refine List.any_eq_false.mpr ?_
      intro e he
      simp only [decide_eq_true_eq]
      intro hc
      exact hnex ⟨e, he, hc⟩
    have hb' : ¬ ((g.edges.any fun e => decide (e.dstId = pd.pid ∧ e.dstField = fd.name)) = true) := by
      rw [hb]
      simp
    have hcomp' : ¬ ((!compatibleFields fs fd) = true) := by
      rw [hcomp]
      simp
    unfold addEdge
    simp only [hs, hd]
    rw [if_neg hne, if_neg hb', if_neg hcomp']
    exact ⟨rfl, rfl⟩

/-- Witness for C5: the demo graph (built by a six-operation sequence)
satisfies the invariant; re-binding the already-bound destination
`P2.in` fails with `FieldAlreadyBound`; the fan-out edge
`P1.out -> P3.in` is accepted although `P1.out -> P2.in` already
exists. -/
theorem destSingleAssignmentInstance :
    uniqueDst demoF ∧
    addEdge demoF "P1.out" "P2.in" = (some .FieldAlreadyBound, demoF) ∧
    ((addEdge demoE "P1.out" "P3.in").1 = none ∧
     (addEdge demoE "P1.out" "P3.in").2.edges =
       demoE.edges ++ [⟨0, 2, "out", "in"⟩]) :=
  have hreach : Reachable demoF :=
    Reachable.edgeAdded (Reachable.edgeAdded (Reachable.outMarked
      (Reachable.passAdded (Reachable.passAdded (Reachable.passAdded
        Reachable.created)))))
  ⟨destSingleAssignment.1 demoF hreach,
   destSingleAssignment.2.1 demoF "P1.out" "P2.in"
     ⟨"P1", 0, passData1, [], []⟩ fix64Out ⟨"P2", 1, passData2, [], []⟩ edgeIn
     rfl rfl (by decide) ⟨⟨0, 1, "out", "in"⟩, by decide, rfl, rfl⟩,
   destSingleAssignment.2.2 demoE "P1.out" "P3.in"
     ⟨"P1", 0, passData1, [], []⟩ fix64Out ⟨"P3", 2, passData3, [], []⟩ edgeIn
     rfl rfl (by decide) (by decide) rfl⟩

/-! ## C6: compile propagates the shared resource, not a copy -/

/-- C6: compiling the valid demo graph (`P1.out` fixed 64×64 feeding
the derived-from-edge inputs `P2.in` and `P3.in`, output `P2.out`
marked) succeeds, and one single resource — the same allocation
identity, modelling the same shared object — is bound to `P1.out`,
`P2.in` and `P3.in`, reporting shape 64×64. -/
theorem sharedResourcePropagation :
    (compile demoF).1 = none ∧
    ∃ r : Resource,
      getOutput (compile demoF).2 "P1.out" = some r ∧
      getInput (compile demoF).2 "P2.in" = some r ∧
      getInput (compile demoF).2 "P3.in" = some r ∧
      r.width = 64 ∧ r.height = 64 :=
  ⟨rfl, ⟨0, .rgba8, 64, 64⟩, rfl, rfl, rfl, rfl, rfl⟩

/-! ## C8: serialization round trip -/

theorem find_unique_key {β : Type} [DecidableEq β] (k : PassNode → β) :
    ∀ (l : List PassNode) (u : PassNode), (l.map k).Nodup → u ∈ l →
      l.find? (fun x => k x = k u) = some u := by
  intro l
  induction l with
  | nil => intro u _ hu; cases hu
  | cons a t ih =>
    intro u hnd hu
    rw [List.map_cons, List.nodup_cons] at hnd
    by_cases hk : k a = k u
    · have hau : a = u := by
        rcases List.mem_cons.mp hu with rfl | hut
        · rfl
        · exact absurd (hk ▸ List.mem_map.mpr ⟨u, hut, rfl⟩) hnd.1
      rw [List.find?_cons_of_pos t (by simp [hk])]
      rw [hau]
    · have hut : u ∈ t := by
        rcases List.mem_cons.mp hu with rfl | hut
        · exact absurd rfl hk
        · exact hut
      rw [List.find?_cons_of_neg t (by simp [hk])]
      exact ih u hnd.2 hut

theorem mkNodes_map_name :
    ∀ (l : List (String × PassData)) (i : Nat),
      (mkNodes i l).map PassNode.name = l.map Prod.fst := by
  intro l
  induction l with
  | nil => intro i; rfl
  | cons nd rest ih =>
    intro i
    simp only [mkNodes, List.map_cons, ih]

theorem mkNodes_map_pid :
    ∀ (l : List (String × PassData)) (i : Nat),
      (mkNodes i l).map PassNode.pid = List.range' i l.length := by
  intro l
  induction l with
  | nil => intro i; rfl
  | cons nd rest ih =>
    intro i
    simp only [mkNodes, List.map_cons, List.length_cons, List.range'_succ, ih]

theorem filterMap_chain_map {α β γ δ : Type} (f : α → Option β) (g2 : β → Option γ)
    (m : γ → δ) (F : α → δ) :
    ∀ l : List α, (∀ x ∈ l, ∃ y z, f x = some y ∧ g2 y = some z ∧ m z = F x) →
      ((l.filterMap f).filterMap g2).map m = l.map F := by
  intro l
  induction l with
  | nil => intro; rfl
  | cons x t ih =>
    intro h
    obtain ⟨y, z, hf, hg, hm⟩ := h x (List.mem_cons_self x t)
    simp only [List.filterMap_cons, hf, hg, List.map_cons, hm]
    rw [ih (fun a ha => h a (List.mem_cons_of_mem x ha))]

/-- C8 (amended): for every graph whose edges and outputs all reference
registered passes (and whose registry keys are distinct), serializing
and then deserializing reproduces an isomorphic graph — the same pass
names, the same canonicalized edge list and the same canonicalized
output list. -/
theorem roundTripWellFormed (g : RenderGraph) (h : WellFormedRefs g) :
    passNames (deserializeJson (serializeJson g)) = passNames g ∧
    canonEdges (deserializeJson (serializeJson g)) = canonEdges g ∧
    canonOuts (deserializeJson (serializeJson g)) = canonOuts g := by
  obtain ⟨hnames, hpids, hedges, houts⟩ := h
  have hbpasses : (docBase (serializeJson g)).passes =
      mkNodes 0 (g.passes.map (fun p => (p.name, p.data))) := rfl
  have hbnames : (docBase (serializeJson g)).passes.map PassNode.name =
      passNames g := by
    rw [hbpasses, mkNodes_map_name, List.map_map]
    rfl
  have hbnodupn : ((docBase (serializeJson g)).passes.map PassNode.name).Nodup := by
    rw [hbnames]
    exact hnames
  have hbnodupp : ((docBase (serializeJson g)).passes.map PassNode.pid).Nodup := by
    rw [hbpasses, mkNodes_map_pid]
    exact List.nodup_range' 0 _
  -- identity/name lookups in the imported registry
  have hRT : ∀ u ∈ (docBase (serializeJson g)).passes,
      nameId (docBase (serializeJson g)) u.name = some u.pid ∧
      idName (docBase (serializeJson g)) u.pid = some u.name := by
    intro u hu
    constructor
    · unfold nameId findPass
      rw [find_unique_key PassNode.name _ u hbnodupn hu]
      rfl
    · unfold idName findPassById
      rw [find_unique_key PassNode.pid _ u hbnodupp hu]
      rfl
  have hlift : ∀ p ∈ g.passes, ∃ u ∈ (docBase (serializeJson g)).passes,
      u.name = p.name := by
    intro p hp
    have : p.name ∈ (docBase (serializeJson g)).passes.map PassNode.name := by
      rw [hbnames]
      exact List.mem_map.mpr ⟨p, hp, rfl⟩
    obtain ⟨u, hu, hun⟩ := List.mem_map.mp this
    exact ⟨u, hu, hun⟩
  refine ⟨?_, ?_, ?_⟩
  · show (docBase (serializeJson g)).passes.map PassNode.name = passNames g
    exact hbnames
  · show ((g.edges.filterMap (serEdge g)).filterMap
        (resolveEdgeDoc (docBase (serializeJson g)))).map
        (fun e => (idName (deserializeJson (serializeJson g)) e.srcId, e.srcField,
                   idName (deserializeJson (serializeJson g)) e.dstId, e.dstField)) =
      g.edges.map
        (fun e => (idName g e.srcId, e.srcField, idName g e.dstId, e.dstField))
    refine filterMap_chain_map _ _ _ _ g.edges ?_
    intro e he
    obtain ⟨hs, hd⟩ := hedges e he
    obtain ⟨ps, hps⟩ := Option.isSome_iff_exists.mp hs
    obtain ⟨pd, hpd⟩ := Option.isSome_iff_exists.mp hd
    have hips : idName g e.srcId = some ps.name := by
      unfold idName
      rw [hps]
      rfl
    have hipd : idName g e.dstId = some pd.name := by
      unfold idName
      rw [hpd]
      rfl
    obtain ⟨u, hu, hun⟩ := hlift ps (List.mem_of_find?_eq_some hps)
    obtain ⟨w, hw, hwn⟩ := hlift pd (List.mem_of_find?_eq_some hpd)
    refine ⟨(ps.name, e.srcField, pd.name, e.dstField),
            ⟨u.pid, w.pid, e.srcField, e.dstField⟩, ?_, ?_, ?_⟩
    · unfold serEdge
      rw [hips, hipd]
    · have h1 : nameId (docBase (serializeJson g)) ps.name = some u.pid := by
        rw [← hun]
        exact (hRT u hu).1
      have h2 : nameId (docBase (serializeJson g)) pd.name = some w.pid := by
        rw [← hwn]
        exact (hRT w hw).1
      unfold resolveEdgeDoc
      dsimp only
      rw [h1, h2]
    · have h1 : idName (docBase (serializeJson g)) u.pid = some ps.name := by
        rw [← hun]
        exact (hRT u hu).2
      have h2 : idName (docBase (serializeJson g)) w.pid = some pd.name := by
        rw [← hwn]
        exact (hRT w hw).2
      show (idName (docBase (serializeJson g)) u.pid, e.srcField,
            idName (docBase (serializeJson g)) w.pid, e.dstField) =
        (idName g e.srcId, e.srcField, idName g e.dstId, e.dstField)
      rw [h1, h2, hips, hipd]
  · show ((g.outputs.filterMap (serOut g)).filterMap
        (resolveOutDoc (docBase (serializeJson g)))).map
        (fun o => (idName (deserializeJson (serializeJson g)) o.pid, o.field)) =
      g.outputs.map (fun o => (idName g o.pid, o.field))
    refine filterMap_chain_map _ _ _ _ g.outputs ?_
    intro o ho
    obtain ⟨p, hp⟩ := Option.isSome_iff_exists.mp (houts o ho)
    have hip : idName g o.pid = some p.name := by
      unfold idName
      rw [hp]
      rfl
    obtain ⟨u, hu, hun⟩ := hlift p (List.mem_of_find?_eq_some hp)
    refine ⟨(p.name, o.field), ⟨u.pid, o.field⟩, ?_, ?_, ?_⟩
    · unfold serOut
      rw [hip]
      rfl
    · have h1 : nameId (docBase (serializeJson g)) p.name = some u.pid := by
        rw [← hun]
        exact (hRT u hu).1
      unfold resolveOutDoc
      rw [h1]
      rfl
    · have h1 : idName (docBase (serializeJson g)) u.pid = some p.name := by
        rw [← hun]
        exact (hRT u hu).2
      show (idName (docBase (serializeJson g)) u.pid, o.field) =
        (idName g o.pid, o.field)
      rw [h1, hip]

/-- Witness for C8 (amended): the fully referenced demo graph round
trips to the same pass names, canonical edges and canonical outputs. -/
theorem roundTripWellFormedInstance :
    passNames (deserializeJson (serializeJson demoF)) = passNames demoF ∧
    canonEdges (deserializeJson (serializeJson demoF)) = canonEdges demoF ∧
    canonOuts (deserializeJson (serializeJson demoF)) = canonOuts demoF :=
  roundTripWellFormed demoF
    ⟨by decide, by decide, by decide, by decide⟩

/-- Counterexample to C8 as stated: the graph obtained by removing `P1`
while the edge `P1.out -> P2.in` still references it serializes to a
document in which that edge has no source name; deserializing yields a
graph whose canonical edge list (empty) differs from the original's
(one dangling edge). -/
theorem roundTripCex :
    ¬ (passNames (deserializeJson (serializeJson dangling)) = passNames dangling ∧
       canonEdges (deserializeJson (serializeJson dangling)) = canonEdges dangling ∧
       canonOuts (deserializeJson (serializeJson dangling)) = canonOuts dangling) := by
  intro h
  exact absurd h.2.1 (by decide)

end Falcor
